/-
Verification of the AlphaImaging core (src/alpha_core) against its
natural-language specification.

Shallow embedding notes:
* PIL images are modelled by `Img`: a width, a height, a mode (L / RGB /
  RGBA), and a pixel function returning the list of band values (0..255)
  at each coordinate.  The palette mode "P" of PIL is not modelled; the
  code's "P" branches perform the same `convert` call as the general
  branch, so nothing is lost for the verified properties.
* PIL's RGB→L conversion uses the fixed-point luminance formula
  (r*19595 + g*38470 + b*7471) >> 16 (ImagingConvert.c); `lum` embeds it.
* Fallible operations return `Except String α`; the single exception
  class `AlphaIOError` of the code is modelled by the error string.
* The filesystem is modelled by `FS`: a list of existing files (with
  their decoded content, `none` when decoding fails), a list of existing
  directories, and an abstract `resolve` canonicalization (the OS
  resolver is outside the repository).
* Progress callbacks are modelled by an accumulated event trace;
  the cancellation flag (default `None` in every entry point) is
  modelled as absent.  Numeric interpolation inside message strings
  (Python f-strings) is elided: messages keep their fixed text.
-/

import Mathlib

namespace AlphaImaging

/-! ## Image model (PIL `Image.Image`, external library) -/

inductive Mode where
  | L
  | RGB
  | RGBA
deriving DecidableEq, Repr

def Mode.bandNames : Mode → List String
  | .L => ["L"]
  | .RGB => ["R", "G", "B"]
  | .RGBA => ["R", "G", "B", "A"]

def Mode.nbands : Mode → Nat
  | .L => 1
  | .RGB => 3
  | .RGBA => 4

structure Img where
  width : Nat
  height : Nat
  mode : Mode
  pix : Nat → Nat → List Nat

/-- PIL fixed-point luminance: `L24(rgb) >> 16`. -/
def lum (r g b : Nat) : Nat :=
  (r * 19595 + g * 38470 + b * 7471) / 65536

/-- Per-pixel band conversion between modes, as PIL `convert` does. -/
def convertBands : Mode → Mode → List Nat → List Nat
  | .L, .L, p => p
  | .L, .RGB, p => [p.getD 0 0, p.getD 0 0, p.getD 0 0]
  | .L, .RGBA, p => [p.getD 0 0, p.getD 0 0, p.getD 0 0, 255]
  | .RGB, .L, p => [lum (p.getD 0 0) (p.getD 1 0) (p.getD 2 0)]
  | .RGB, .RGB, p => p
  | .RGB, .RGBA, p => p.take 3 ++ [255]
  | .RGBA, .L, p => [lum (p.getD 0 0) (p.getD 1 0) (p.getD 2 0)]
  | .RGBA, .RGB, p => p.take 3
  | .RGBA, .RGBA, p => p

def Img.convert (img : Img) (m : Mode) : Img :=
  { width := img.width, height := img.height, mode := m,
    pix := fun x y => convertBands img.mode m (img.pix x y) }

/-- PIL `Image.getbands()`. -/
def Img.getbands (img : Img) : List String := img.mode.bandNames

/-- Well-formedness of a decoded image: in-bounds pixels carry exactly
the bands of the mode, each a byte value. -/
def Img.Wf (img : Img) : Prop :=
  ∀ x y, x < img.width → y < img.height →
    (img.pix x y).length = img.mode.nbands ∧ ∀ v ∈ img.pix x y, v ≤ 255

/-! ## io.py : mode canonicalization -/

def ensure_rgba (img : Img) : Img :=
  if img.mode = .RGBA then img else img.convert .RGBA

def ensure_rgb (img : Img) : Img :=
  if img.mode = .RGB then img
  else if img.mode = .RGBA then img.convert .RGB
  else img.convert .RGB

def ensure_l (img : Img) : Img :=
  if img.mode = .L then img
  else if img.mode = .RGBA then (img.convert .RGB).convert .L
  else img.convert .L

/-! ## Path model (`pathlib.Path`) -/

structure FilePath where
  parts : List String
deriving DecidableEq, Repr

/-- Character-level lowercasing (Python `str.lower()` on ASCII names);
kernel-reducible counterpart of `String.toLower`. -/
def strToLower (s : String) : String := String.mk (s.toList.map Char.toLower)

/-- Kernel-reducible counterpart of `String.endsWith`. -/
def strEndsWith (s post : String) : Bool := post.toList.isSuffixOf s.toList

/-- Kernel-reducible counterpart of `String.dropRight`. -/
def strDropRight (s : String) (n : Nat) : String :=
  String.mk (s.toList.take (s.toList.length - n))

def pathStr (p : FilePath) : String :=
  if p.parts = [] then "." else String.intercalate "/" p.parts

def FilePath.name (p : FilePath) : String := p.parts.getLastD ""

/-- Index (in the character list) of the dot that starts the pathlib
suffix of a file name: the last dot, provided it is strictly interior. -/
def suffixDotIdx (name : String) : Option Nat :=
  match (((name.toList.enum).filter (fun pr => pr.2 = '.')).map (fun pr => pr.1)).getLast? with
  | none => none
  | some i => if 0 < i ∧ i < name.toList.length - 1 then some i else none

/-- `pathlib` stem of a file name. -/
def stemOf (name : String) : String :=
  match suffixDotIdx name with
  | none => name
  | some i => String.mk (name.toList.take i)

/-- `pathlib` suffix (extension, dot included) of a file name. -/
def extOf (name : String) : String :=
  match suffixDotIdx name with
  | none => ""
  | some i => String.mk (name.toList.drop i)

def FilePath.stem (p : FilePath) : String := stemOf p.name

def FilePath.parent (p : FilePath) : FilePath := ⟨p.parts.dropLast⟩

/-! ## Filesystem model -/

structure FS where
  fileList : List (FilePath × Option Img)
  dirList : List FilePath
  resolve : FilePath → FilePath

def FS.isFile (fs : FS) (p : FilePath) : Bool :=
  fs.fileList.any (fun e => e.1 = p)

def FS.isDir (fs : FS) (p : FilePath) : Bool :=
  fs.dirList.any (fun d => d = p)

def FS.pathExists (fs : FS) (p : FilePath) : Bool :=
  fs.isFile p || fs.isDir p

def FS.content (fs : FS) (p : FilePath) : Option Img :=
  match fs.fileList.find? (fun e => e.1 = p) with
  | some e => e.2
  | none => none

/-- Write a PNG file: the path becomes an existing, decodable file and
the parent directory is created (`safe_mkdir`). -/
def FS.write (fs : FS) (p : FilePath) (img : Img) : FS :=
  { fileList := (p, some img) :: fs.fileList.filter (fun e => ¬ e.1 = p),
    dirList := p.parent :: fs.dirList,
    resolve := fs.resolve }

/-! ## io.py : file helpers -/

def SUPPORTED_IMAGE_EXTS : List String :=
  [".png", ".tga", ".tif", ".tiff", ".bmp", ".webp", ".jpg", ".jpeg"]

def is_image_file (fs : FS) (p : FilePath) : Bool :=
  fs.isFile p && SUPPORTED_IMAGE_EXTS.contains (strToLower (extOf p.name))

def load_image (fs : FS) (p : FilePath) : Except String Img :=
  match fs.content p with
  | some img => Except.ok img
  | none => Except.error ("Failed to load image: " ++ pathStr p)

def save_png (img : Img) (p : FilePath) (overwrite : Bool) (fs : FS) :
    Except String FS :=
  if fs.pathExists p ∧ ¬ overwrite then
    Except.error ("Refusing to overwrite existing file: " ++ pathStr p)
  else
    Except.ok (fs.write p img)

def save_mask_png (mask : Img) (p : FilePath) (overwrite : Bool) (fs : FS) :
    Except String FS :=
  save_png (ensure_l mask) p overwrite fs

def infer_output_path (in_path out_dir : FilePath) (sfx ext : String) :
    FilePath :=
  ⟨out_dir.parts ++ [in_path.stem ++ sfx ++ ext]⟩

/-- All strict descendants of a directory (`p.rglob("*")`), in the
sorted order Python's `sorted` produces (by path string). -/
def FS.rglobSorted (fs : FS) (p : FilePath) : List FilePath :=
  ((fs.fileList.map (fun e => e.1) ++ fs.dirList).filter
      (fun c => p.parts.isPrefixOf c.parts && ¬ c = p)).mergeSort
    (fun a b => pathStr a ≤ pathStr b)

def dedupByResolved (fs : FS) : List String → List FilePath → List FilePath
  | _, [] => []
  | seen, p :: rest =>
    let k := pathStr (fs.resolve p)
    if seen.contains k then dedupByResolved fs seen rest
    else p :: dedupByResolved fs (k :: seen) rest

def expand_inputs (fs : FS) (paths : List FilePath) : List FilePath :=
  let out := paths.flatMap (fun p =>
    if fs.isDir p then (fs.rglobSorted p).filter (fun c => is_image_file fs c)
    else if is_image_file fs p then [p]
    else [])
  dedupByResolved fs [] out

/-! ## Batch driver plumbing -/

structure ProgressEvent where
  done : Nat
  total : Nat
  path : FilePath
  message : String

structure BatchResult (α : Type) where
  fs : FS
  outputs : List α
  trace : List ProgressEvent
  err : Option String

/-! ## ops_split.py -/

def split_alpha (img : Img) (on_missing_alpha : String) :
    Except String (Img × Img) :=
  let rgba := ensure_rgba img
  if "A" ∉ rgba.getbands then
    if on_missing_alpha = "error" then
      Except.error "Image has no alpha channel."
    else
      let rgb := ensure_rgb rgba
      let alpha : Img :=
        { width := rgba.width, height := rgba.height, mode := .L,
          pix := fun _ _ => [255] }
      Except.ok (rgb, alpha)
  else
    -- r, g, b, a = rgba.split(); rgb = Image.merge("RGB", (r, g, b))
    let rgb : Img :=
      { width := rgba.width, height := rgba.height, mode := .RGB,
        pix := fun x y => (rgba.pix x y).take 3 }
    let a : Img :=
      { width := rgba.width, height := rgba.height, mode := .L,
        pix := fun x y => [(rgba.pix x y).getD 3 0] }
    Except.ok (rgb, a)

/-- File-level split.  Returns the filesystem after any writes that
happened, together with the raised error if one was raised (mirroring
Python exception semantics where earlier writes persist). -/
def split_alpha_file (fs : FS) (in_path out_rgb_path out_alpha_path : FilePath)
    (overwrite : Bool) (on_missing_alpha : String) : FS × Option String :=
  match load_image fs in_path with
  | Except.error e => (fs, some e)
  | Except.ok img =>
    match split_alpha img on_missing_alpha with
    | Except.error e => (fs, some e)
    | Except.ok (rgb, alpha) =>
      match save_png rgb out_rgb_path overwrite fs with
      | Except.error e => (fs, some e)
      | Except.ok fs1 =>
        match save_mask_png alpha out_alpha_path overwrite fs1 with
        | Except.error e => (fs1, some e)
        | Except.ok fs2 => (fs2, none)

def splitLoop (out_dir : FilePath) (rgb_sfx alpha_sfx : String)
    (overwrite : Bool) (on_missing_alpha : String) (cont : Bool)
    (total : Nat) : FS → List FilePath → Nat → BatchResult FilePath
  | fs, [], _ => ⟨fs, [], [], none⟩
  | fs, p :: rest, i =>
    let ev1 : ProgressEvent := ⟨i - 1, total, p, "Splitting alpha"⟩
    let out_rgb := infer_output_path p out_dir rgb_sfx ".png"
    let out_a := infer_output_path p out_dir alpha_sfx ".png"
    match split_alpha_file fs p out_rgb out_a overwrite on_missing_alpha with
    | (fs2, some e) =>
      if cont then
        let r := splitLoop out_dir rgb_sfx alpha_sfx overwrite
          on_missing_alpha cont total fs2 rest (i + 1)
        ⟨r.fs, r.outputs, ev1 :: r.trace, r.err⟩
      else ⟨fs2, [], [ev1], some e⟩
    | (fs2, none) =>
      let ev2 : ProgressEvent := ⟨i, total, p, "Done"⟩
      let r := splitLoop out_dir rgb_sfx alpha_sfx overwrite
        on_missing_alpha cont total fs2 rest (i + 1)
      ⟨r.fs, out_rgb :: out_a :: r.outputs, ev1 :: ev2 :: r.trace, r.err⟩

def split_alpha_files (fs : FS) (in_paths : List FilePath) (out_dir : FilePath)
    (rgb_sfx alpha_sfx : String) (overwrite : Bool)
    (on_missing_alpha : String) (cont : Bool) : BatchResult FilePath :=
  let files := expand_inputs fs in_paths
  splitLoop out_dir rgb_sfx alpha_sfx overwrite on_missing_alpha cont
    files.length fs files 1

/-! ## ops_combine.py -/

/-- Modelled black box: single-channel resize of the external image
library (out of scope of the core per the spec).  A simple
nearest-index mapping; no verified claim depends on resized values. -/
def Img.resizeModel (img : Img) (w h : Nat) (resample : String) : Img :=
  { width := w, height := h, mode := img.mode,
    pix := fun x y => img.pix (x * img.width / w) (y * img.height / h) }

def combine_alpha (rgb_img alpha_mask : Img) (invert : Bool)
    (resize_mode resample : String) : Except String Img :=
  let rgb := ensure_rgb rgb_img
  let mask0 := ensure_l alpha_mask
  if ¬ ((mask0.width, mask0.height) = (rgb.width, rgb.height)) then
    if resize_mode = "error" then
      Except.error "Mask size does not match RGB size."
    else
      Except.ok (combineMerge rgb
        (maskInvert (mask0.resizeModel rgb.width rgb.height resample) invert))
  else
    Except.ok (combineMerge rgb (maskInvert mask0 invert))
where
  maskInvert (m : Img) (invert : Bool) : Img :=
    if invert then
      { width := m.width, height := m.height, mode := m.mode,
        pix := fun x y => (m.pix x y).map (fun v => 255 - v) }
    else m
  combineMerge (rgb mask : Img) : Img :=
    { width := rgb.width, height := rgb.height, mode := .RGBA,
      pix := fun x y => (rgb.pix x y).take 3 ++ [(mask.pix x y).getD 0 0] }

def combine_alpha_file (fs : FS) (rgb_path alpha_path out_path : FilePath)
    (invert : Bool) (resize_mode resample : String) (overwrite : Bool) :
    FS × Option String :=
  match load_image fs rgb_path with
  | Except.error e => (fs, some e)
  | Except.ok rgb =>
    match load_image fs alpha_path with
    | Except.error e => (fs, some e)
    | Except.ok a =>
      match combine_alpha rgb a invert resize_mode resample with
      | Except.error e => (fs, some e)
      | Except.ok out =>
        match save_png out out_path overwrite fs with
        | Except.error e => (fs, some e)
        | Except.ok fs1 => (fs1, none)

def combineLoop (out_dir : FilePath) (out_sfx : String) (invert : Bool)
    (resize_mode resample : String) (overwrite : Bool) (cont : Bool)
    (total : Nat) : FS → List (FilePath × FilePath) → Nat → BatchResult FilePath
  | fs, [], _ => ⟨fs, [], [], none⟩
  | fs, (rgb_p, a_p) :: rest, i =>
    let ev1 : ProgressEvent := ⟨i - 1, total, rgb_p, "Combining alpha"⟩
    let out_path := infer_output_path rgb_p out_dir out_sfx ".png"
    match combine_alpha_file fs rgb_p a_p out_path invert resize_mode
        resample overwrite with
    | (fs2, some e) =>
      if cont then
        let r := combineLoop out_dir out_sfx invert resize_mode resample
          overwrite cont total fs2 rest (i + 1)
        ⟨r.fs, r.outputs, ev1 :: r.trace, r.err⟩
      else ⟨fs2, [], [ev1], some e⟩
    | (fs2, none) =>
      let ev2 : ProgressEvent := ⟨i, total, rgb_p, "Done"⟩
      let r := combineLoop out_dir out_sfx invert resize_mode resample
        overwrite cont total fs2 rest (i + 1)
      ⟨r.fs, out_path :: r.outputs, ev1 :: ev2 :: r.trace, r.err⟩

def combine_alpha_files (fs : FS) (pairList : List (FilePath × FilePath))
    (out_dir : FilePath) (out_sfx : String) (invert : Bool)
    (resize_mode resample : String) (overwrite : Bool) (cont : Bool) :
    BatchResult FilePath :=
  combineLoop out_dir out_sfx invert resize_mode resample overwrite cont
    pairList.length fs pairList 1

/-! ## ops_generate.py -/

structure GenerateOptions where
  kind : String := "luminance"
  threshold : Int := 128
  key_color : Int × Int × Int := (0, 0, 0)
  tolerance : Int := 20
  invert : Bool := false

def generate_alpha_luminance (img : Img) : Img :=
  (ensure_rgb img).convert .L

def generate_alpha_threshold (img : Img) (threshold : Int) :
    Except String Img :=
  if ¬ (0 ≤ threshold ∧ threshold ≤ 255) then
    Except.error "threshold must be between 0 and 255"
  else
    let l := generate_alpha_luminance img
    Except.ok
      { width := l.width, height := l.height, mode := .L,
        pix := fun x y =>
          if ((l.pix x y).getD 0 0 : Int) ≥ threshold then [255] else [0] }

/-- Chebyshev distance of a pixel's first three band values to the key
color, in signed (unbounded) arithmetic, as the int16 numpy code does. -/
def chebyshev (p : List Nat) (key : Int × Int × Int) : Int :=
  max ((p.getD 0 0 : Int) - key.1).natAbs
    (max ((p.getD 1 0 : Int) - key.2.1).natAbs
      ((p.getD 2 0 : Int) - key.2.2).natAbs)

def generate_alpha_colorkey (img : Img) (key_rgb : Int × Int × Int)
    (tolerance : Int) : Except String Img :=
  if ¬ (0 ≤ tolerance ∧ tolerance ≤ 255) then
    Except.error "tolerance must be between 0 and 255"
  else
    let rgb := ensure_rgb img
    Except.ok
      { width := rgb.width, height := rgb.height, mode := .L,
        pix := fun x y =>
          if chebyshev (rgb.pix x y) key_rgb ≤ tolerance then [0] else [255] }

def maybe_invert (mask : Img) (invert : Bool) : Img :=
  let m := ensure_l mask
  if ¬ invert then m
  else
    { width := m.width, height := m.height, mode := m.mode,
      pix := fun x y => (m.pix x y).map (fun v => 255 - v) }

def generate_alpha_file (fs : FS) (in_path out_mask_path : FilePath)
    (opts : GenerateOptions) (overwrite : Bool) :
    FS × Option String × Option FilePath :=
  match load_image fs in_path with
  | Except.error e => (fs, some e, none)
  | Except.ok img =>
    let maskE : Except String Img :=
      if opts.kind = "luminance" then Except.ok (generate_alpha_luminance img)
      else if opts.kind = "threshold" then
        generate_alpha_threshold img opts.threshold
      else if opts.kind = "colorkey" then
        generate_alpha_colorkey img opts.key_color opts.tolerance
      else Except.error ("Unknown generation kind: " ++ opts.kind)
    match maskE with
    | Except.error e => (fs, some e, none)
    | Except.ok mask =>
      match save_mask_png (maybe_invert mask opts.invert) out_mask_path
          overwrite fs with
      | Except.error e => (fs, some e, none)
      | Except.ok fs1 => (fs1, none, some out_mask_path)

def generateLoop (out_dir : FilePath) (opts : GenerateOptions)
    (out_sfx : String) (overwrite : Bool) (cont : Bool) (total : Nat) :
    FS → List FilePath → Nat → BatchResult FilePath
  | fs, [], _ => ⟨fs, [], [], none⟩
  | fs, p :: rest, i =>
    let ev1 : ProgressEvent := ⟨i - 1, total, p, "Generating alpha"⟩
    let out_mask := infer_output_path p out_dir out_sfx ".png"
    match generate_alpha_file fs p out_mask opts overwrite with
    | (fs2, some e, _) =>
      if cont then
        let r := generateLoop out_dir opts out_sfx overwrite cont total
          fs2 rest (i + 1)
        ⟨r.fs, r.outputs, ev1 :: r.trace, r.err⟩
      else ⟨fs2, [], [ev1], some e⟩
    | (fs2, none, out?) =>
      let ev2 : ProgressEvent := ⟨i, total, p, "Done"⟩
      let r := generateLoop out_dir opts out_sfx overwrite cont total
        fs2 rest (i + 1)
      ⟨r.fs, out?.toList ++ r.outputs, ev1 :: ev2 :: r.trace, r.err⟩

def generate_alpha_files (fs : FS) (in_paths : List FilePath)
    (out_dir : FilePath) (opts : GenerateOptions) (out_sfx : String)
    (overwrite : Bool) (cont : Bool) : BatchResult FilePath :=
  let files := expand_inputs fs in_paths
  generateLoop out_dir opts out_sfx overwrite cont files.length fs files 1

/-! ## ops_validate.py -/

/-- A 2-D numpy uint8 array (row-major data). -/
structure NpArray2D where
  h : Nat
  w : Nat
  data : List Nat
deriving DecidableEq, Repr

/-- numpy float results are modelled as exact rationals; the
population standard deviation is the real square root of the
(rational) variance. -/
structure AlphaStats where
  width : Nat
  height : Nat
  min : Nat
  max : Nat
  mean : ℚ
  std : ℝ
  pct_zero : ℚ
  pct_255 : ℚ
  pct_mid : ℚ

structure ValidationRules where
  warn_pct_255 : ℚ := 999 / 10
  warn_pct_zero : ℚ := 999 / 10
  warn_std_lt : ℝ := 1
  warn_range_le : Int := 2
  fail_no_alpha : Bool := false

inductive Status where
  | PASS
  | WARN
  | FAIL
deriving DecidableEq, Repr

structure AlphaValidationResult where
  path : String
  has_alpha : Bool
  status : Status
  messages : List String
  stats : Option AlphaStats

def alpha_array (img : Img) : Option NpArray2D :=
  let rgba := ensure_rgba img
  if "A" ∉ rgba.getbands then none
  else some
    { h := rgba.height, w := rgba.width,
      data := (List.range rgba.height).flatMap (fun y =>
        (List.range rgba.width).map (fun x => (rgba.pix x y).getD 3 0)) }

def listMin : List Nat → Nat
  | [] => 0
  | x :: xs => xs.foldl Nat.min x

def listMax : List Nat → Nat
  | [] => 0
  | x :: xs => xs.foldl Nat.max x

def npMean (l : List Nat) : ℚ := ((l.map (fun v => (Nat.cast v : ℚ))).sum) / l.length

def npVariance (l : List Nat) : ℚ :=
  ((l.map (fun v => ((Nat.cast v : ℚ) - npMean l) ^ 2)).sum) / l.length

noncomputable def computeAlphaStats (a : NpArray2D) : AlphaStats :=
  let total : ℚ := (a.data.length : ℚ)
  { width := a.w, height := a.h,
    min := listMin a.data, max := listMax a.data,
    mean := npMean a.data,
    std := Real.sqrt (npVariance a.data : ℝ),
    pct_zero := ((a.data.countP (fun v => v = 0) : ℚ) * 100) / total,
    pct_255 := ((a.data.countP (fun v => v = 255) : ℚ) * 100) / total,
    pct_mid := ((a.data.countP (fun v => 0 < v ∧ v < 255) : ℚ) * 100) / total }

open scoped Classical in
noncomputable def validate_alpha_file (fs : FS) (p : FilePath)
    (rules : ValidationRules) : Except String AlphaValidationResult :=
  match load_image fs p with
  | Except.error e => Except.error e
  | Except.ok img =>
    match alpha_array img with
    | none =>
      Except.ok
        { path := pathStr p, has_alpha := false,
          status := if rules.fail_no_alpha then .FAIL else .WARN,
          messages := ["No alpha channel."], stats := none }
    | some arr =>
      let stats := computeAlphaStats arr
      let ms0 : List String := []
      let st0 : Status := .PASS
      let r1 :=
        if stats.pct_255 ≥ rules.warn_pct_255 then
          (ms0 ++ ["Alpha is ~all opaque."], Status.WARN)
        else (ms0, st0)
      let r2 :=
        if stats.pct_zero ≥ rules.warn_pct_zero then
          (r1.1 ++ ["Alpha is ~all transparent."], Status.WARN)
        else r1
      let r3 :=
        if stats.std < rules.warn_std_lt ∧
            (stats.max : Int) - stats.min ≤ rules.warn_range_le then
          (r2.1 ++ ["Alpha is near-constant."], Status.WARN)
        else r2
      Except.ok
        { path := pathStr p, has_alpha := true, status := r3.2,
          messages := r3.1, stats := some stats }

noncomputable def validateLoop (rules : ValidationRules) (cont : Bool)
    (total : Nat) : FS → List FilePath → Nat →
    BatchResult AlphaValidationResult
  | fs, [], _ => ⟨fs, [], [], none⟩
  | fs, p :: rest, i =>
    let ev1 : ProgressEvent := ⟨i - 1, total, p, "Validating alpha"⟩
    match validate_alpha_file fs p rules with
    | Except.ok res =>
      let ev2 : ProgressEvent := ⟨i, total, p, "Done"⟩
      let r := validateLoop rules cont total fs rest (i + 1)
      ⟨r.fs, res :: r.outputs, ev1 :: ev2 :: r.trace, r.err⟩
    | Except.error e =>
      if cont then
        let failRes : AlphaValidationResult :=
          { path := pathStr p, has_alpha := false, status := .FAIL,
            messages := ["Error reading/processing file: " ++ e],
            stats := none }
        let ev2 : ProgressEvent := ⟨i, total, p, "Done"⟩
        let r := validateLoop rules cont total fs rest (i + 1)
        ⟨r.fs, failRes :: r.outputs, ev1 :: ev2 :: r.trace, r.err⟩
      else ⟨fs, [], [ev1], some e⟩

/-- `validate_alpha_files` iterates `list(paths)` — the raw caller list,
with no path expansion. -/
noncomputable def validate_alpha_files (fs : FS) (paths : List FilePath)
    (rules : ValidationRules) (cont : Bool) :
    BatchResult AlphaValidationResult :=
  validateLoop rules cont paths.length fs paths 1

/-! ## naming.py : pairing resolver -/

inductive PairingMode where
  | suffixMode
  | folderMode
  | exactMode
deriving DecidableEq, Repr

structure PairingRule where
  mode : PairingMode := .suffixMode
  alpha_suffix : String := "_alpha"
  rgb_suffix : String := ""
  rgb_dir_name : String := "rgb"
  alpha_dir_name : String := "alpha"
  case_sensitive : Bool := false

def norm (s : String) (case_sensitive : Bool) : String :=
  if case_sensitive then s else strToLower s

/-- `_key_for_path`.  In folder mode the `ValueError` raised both by a
missing directory segment and by `Path().with_suffix("")` on an empty
remainder is caught, falling back to the bare stem. -/
def key_for_path (p : FilePath) (rule : PairingRule) (isAlphaSide : Bool) :
    String :=
  match rule.mode with
  | .suffixMode =>
    let s0 := p.stem
    let s1 :=
      if isAlphaSide ∧ ¬ rule.alpha_suffix = "" ∧
          strEndsWith s0 rule.alpha_suffix then
        strDropRight s0 rule.alpha_suffix.length
      else s0
    let s2 :=
      if (¬ isAlphaSide) ∧ ¬ rule.rgb_suffix = "" ∧
          strEndsWith s1 rule.rgb_suffix then
        strDropRight s1 rule.rgb_suffix.length
      else s1
    norm s2 rule.case_sensitive
  | .folderMode =>
    let dirName := if isAlphaSide then rule.alpha_dir_name else rule.rgb_dir_name
    match p.parts.findIdx? (fun s => s = dirName) with
    | some idx =>
      let rest := p.parts.drop (idx + 1)
      match rest.getLast? with
      | some last =>
        norm (pathStr ⟨rest.dropLast ++ [stemOf last]⟩) rule.case_sensitive
      | none => norm p.stem rule.case_sensitive
    | none => norm p.stem rule.case_sensitive
  | .exactMode => norm p.stem rule.case_sensitive

/-- Insertion-ordered dict with `setdefault` (first occurrence wins). -/
def setdefault (m : List (String × FilePath)) (k : String) (v : FilePath) :
    List (String × FilePath) :=
  if m.any (fun e => e.1 = k) then m else m ++ [(k, v)]

def buildKeyMap (fs : FS) (rule : PairingRule) (isAlphaSide : Bool) :
    List FilePath → List (String × FilePath) → List (String × FilePath)
  | [], m => m
  | p :: rest, m =>
    buildKeyMap fs rule isAlphaSide rest
      (if is_image_file fs p then
        setdefault m (key_for_path p rule isAlphaSide) p
      else m)

def alookup (m : List (String × FilePath)) (k : String) : Option FilePath :=
  (m.find? (fun e => e.1 = k)).map (fun e => e.2)

def build_pairs (fs : FS) (rgb_paths alpha_paths : List FilePath)
    (rule : PairingRule) :
    List (FilePath × FilePath) × List FilePath × List FilePath :=
  let rgb_map := buildKeyMap fs rule false rgb_paths []
  let alpha_map := buildKeyMap fs rule true alpha_paths []
  let pairs := rgb_map.filterMap (fun kp =>
    (alookup alpha_map kp.1).map (fun a => (kp.2, a)))
  let used_alpha := (rgb_map.filter
    (fun kp => (alookup alpha_map kp.1).isSome)).map (fun kp => kp.1)
  let unpaired_rgb := (rgb_map.filter (fun kp =>
    kp.1 ∉ used_alpha ∧ (alookup alpha_map kp.1).isNone)).map
      (fun kp => kp.2)
  let unpaired_alpha := (alpha_map.filter (fun kp =>
    kp.1 ∉ used_alpha)).map (fun kp => kp.2)
  (pairs.mergeSort (fun a b => pathStr a.1 ≤ pathStr b.1),
   unpaired_rgb.mergeSort (fun a b => pathStr a ≤ pathStr b),
   unpaired_alpha.mergeSort (fun a b => pathStr a ≤ pathStr b))

/-- The set of distinct pairing keys derived from the image files of a
path list (non-image paths are excluded before key derivation). -/
def imageKeys (fs : FS) (rule : PairingRule) (isAlphaSide : Bool)
    (l : List FilePath) : Finset String :=
  ((l.filter (fun p => is_image_file fs p)).map
    (fun p => key_for_path p rule isAlphaSide)).toFinset

/-! ## Concrete data used by evaluations and witnesses -/

def rgbImg1 : Img :=
  { width := 1, height := 1, mode := .RGB, pix := fun _ _ => [10, 20, 30] }

def rgbaImg1 : Img :=
  { width := 1, height := 1, mode := .RGBA, pix := fun _ _ => [1, 2, 3, 4] }

def whiteRGB : Img :=
  { width := 1, height := 1, mode := .RGB, pix := fun _ _ => [255, 255, 255] }

def inPath1 : FilePath := ⟨["in", "img.png"]⟩
def outDir1 : FilePath := ⟨["out"]⟩
def outRgbPath1 : FilePath := ⟨["out", "img_rgb.png"]⟩
def outAlphaPath1 : FilePath := ⟨["out", "img_alpha.png"]⟩

def fs1 : FS := ⟨[(inPath1, some rgbImg1)], [], id⟩

def fsEmpty : FS := ⟨[], [], id⟩

def txtPath1 : FilePath := ⟨["x.txt"]⟩

def aPngPath : FilePath := ⟨["a.png"]⟩

def fsA : FS := ⟨[(aPngPath, some rgbaImg1)], [], id⟩

/-! ## Theorems -/

theorem ensure_rgba_mode (img : Img) : (ensure_rgba img).mode = .RGBA := by
  unfold ensure_rgba
  split
  · assumption
  · rfl

/-- C2: `ensure_rgba` always returns an image whose band set contains
"A"; consequently the no-alpha branch inside `split_alpha` — including
the raise taken when `on_missing_alpha = "error"` — is unreachable, and
`split_alpha` never fails, for every input image and every policy
value. -/
theorem c2_ensure_rgba_has_alpha_split_total (img : Img) (oma : String) :
    "A" ∈ (ensure_rgba img).getbands ∧
    ∃ rgb a, split_alpha img oma = Except.ok (rgb, a) := by
  have hm : (ensure_rgba img).mode = Mode.RGBA := ensure_rgba_mode img
  constructor
  · simp [Img.getbands, hm, Mode.bandNames]
  · unfold split_alpha
    simp [Img.getbands, hm, Mode.bandNames]

/-- C1: the spec says that with `on_missing_alpha="error"` an RGB-only
input makes the per-item split fail with a MissingChannel error, so the
batch (default `continue_on_error`) skips the item and returns an empty
output list.  The code instead converts to RGBA first, synthesizing an
opaque alpha, so the error branch never runs: on a 1×1 RGB file the
per-item split succeeds, and the batch writes and returns both output
paths, the written alpha mask being uniformly 255. -/
theorem c1_split_error_policy_never_triggers :
    (∃ rgbOut aOut, split_alpha rgbImg1 "error" = Except.ok (rgbOut, aOut) ∧
      aOut.mode = Mode.L ∧ aOut.pix 0 0 = [255]) ∧
    (split_alpha_files fs1 [inPath1] outDir1 "_rgb" "_alpha" false "error"
        true).outputs = [outRgbPath1, outAlphaPath1] ∧
    (split_alpha_files fs1 [inPath1] outDir1 "_rgb" "_alpha" false "error"
        true).err = none ∧
    ((split_alpha_files fs1 [inPath1] outDir1 "_rgb" "_alpha" false
        "error" true).fs.content outAlphaPath1).map (fun w => w.pix 0 0) =
      some [255] := by
  refine ⟨⟨_, _, rfl, rfl, rfl⟩, by decide, by decide, ?_⟩
  rfl

theorem take3_append_getD (l : List Nat) (h : l.length = 4) :
    l.take 3 ++ [l.getD 3 0] = l := by
  rcases l with _ | ⟨a, _ | ⟨b, _ | ⟨c, _ | ⟨d, _ | ⟨e, l⟩⟩⟩⟩⟩ <;> simp_all

/-- C4: for an image that already has 4 bands (RGBA), `combine_alpha`
applied to the pair returned by `split_alpha` — with `invert=false` and
equal dimensions, so no resize occurs — reproduces the original image's
RGB planes and alpha plane bit-for-bit. -/
theorem c4_roundtrip (img : Img) (oma rs : String)
    (hmode : img.mode = Mode.RGBA) (hwf : img.Wf) :
    ∃ rgb a out,
      split_alpha img oma = Except.ok (rgb, a) ∧
      combine_alpha rgb a false "error" rs = Except.ok out ∧
      out.width = img.width ∧ out.height = img.height ∧
      out.mode = Mode.RGBA ∧
      ∀ x y, x < img.width → y < img.height → out.pix x y = img.pix x y := by
  have hra : ensure_rgba img = img := by
    unfold ensure_rgba
    simp [hmode]
  refine ⟨Img.mk img.width img.height .RGB
      (fun x y => (img.pix x y).take 3),
    Img.mk img.width img.height .L
      (fun x y => [(img.pix x y).getD 3 0]),
    Img.mk img.width img.height .RGBA
      (fun x y => ((img.pix x y).take 3).take 3 ++ [(img.pix x y).getD 3 0]),
    ?_, ?_, rfl, rfl, rfl, ?_⟩
  · unfold split_alpha
    rw [hra]
    simp [Img.getbands, hmode, Mode.bandNames]
  · unfold combine_alpha ensure_rgb ensure_l
    simp [combine_alpha.maskInvert, combine_alpha.combineMerge]
  · intro x y hx hy
    show ((img.pix x y).take 3).take 3 ++ [((img.pix x y).getD 3 0)] =
      img.pix x y
    rw [List.take_take]
    have hlen : (img.pix x y).length = 4 := by
      have := (hwf x y hx hy).1
      rwa [hmode] at this
    simpa using take3_append_getD _ hlen

/-- Witness for C4 at a concrete 1×1 RGBA image. -/
theorem c4_roundtrip_witness :
    rgbaImg1.mode = Mode.RGBA ∧ rgbaImg1.Wf ∧
    (∃ rgb a out,
      split_alpha rgbaImg1 "opaque" = Except.ok (rgb, a) ∧
      combine_alpha rgb a false "error" "nearest" = Except.ok out ∧
      out.width = rgbaImg1.width ∧ out.height = rgbaImg1.height ∧
      out.mode = Mode.RGBA ∧
      ∀ x y, x < rgbaImg1.width → y < rgbaImg1.height →
        out.pix x y = rgbaImg1.pix x y) := by
  have hwf : rgbaImg1.Wf := by
    intro x y hx hy
    exact ⟨rfl, by intro v hv; simp [rgbaImg1] at hv; omega⟩
  exact ⟨rfl, hwf, c4_roundtrip rgbaImg1 "opaque" "nearest" rfl hwf⟩

theorem getD_le_255 (l : List Nat) (h : ∀ v ∈ l, v ≤ 255) (i : Nat) :
    l.getD i 0 ≤ 255 := by
  rw [List.getD_eq_getElem?_getD]
  cases hl : l[i]? with
  | none => simp
  | some v => simpa using h v (List.getElem?_mem hl)

theorem ensure_rgb_mode (img : Img) : (ensure_rgb img).mode = .RGB := by
  unfold ensure_rgb
  split
  · assumption
  · split <;> rfl

theorem ensure_rgb_width (img : Img) : (ensure_rgb img).width = img.width := by
  unfold ensure_rgb
  split
  · rfl
  · split <;> rfl

theorem ensure_rgb_height (img : Img) :
    (ensure_rgb img).height = img.height := by
  unfold ensure_rgb
  split
  · rfl
  · split <;> rfl

theorem ensure_rgb_pix_le (img : Img) (x y : Nat)
    (hv : ∀ v ∈ img.pix x y, v ≤ 255) :
    ∀ v ∈ (ensure_rgb img).pix x y, v ≤ 255 := by
  intro v hvmem
  unfold ensure_rgb at hvmem
  rcases hm : img.mode with _ | _ | _ <;>
    simp [Img.convert, convertBands, hm] at hvmem
  · subst hvmem
    simpa using getD_le_255 (img.pix x y) hv 0
  · exact hv v hvmem
  · exact hv v (List.mem_of_mem_take hvmem)

theorem ensure_rgb_getD_le (img : Img) (hwf : img.Wf) (x y : Nat)
    (hx : x < img.width) (hy : y < img.height) (i : Nat) :
    ((ensure_rgb img).pix x y).getD i 0 ≤ 255 :=
  getD_le_255 _ (ensure_rgb_pix_le img x y (hwf x y hx hy).2) i

/-- Luminance plane value of `generate_alpha_luminance` at a pixel. -/
def lumAt (img : Img) (x y : Nat) : Nat :=
  lum (((ensure_rgb img).pix x y).getD 0 0)
    (((ensure_rgb img).pix x y).getD 1 0)
    (((ensure_rgb img).pix x y).getD 2 0)

theorem luminance_pix (img : Img) (x y : Nat) :
    (generate_alpha_luminance img).pix x y = [lumAt img x y] := by
  unfold generate_alpha_luminance Img.convert lumAt
  rw [ensure_rgb_mode]
  rfl

theorem lum_le_255 {r g b : Nat} (hr : r ≤ 255) (hg : g ≤ 255)
    (hb : b ≤ 255) : lum r g b ≤ 255 := by
  unfold lum
  have h : r * 19595 + g * 38470 + b * 7471 ≤ 16711680 := by omega
  calc (r * 19595 + g * 38470 + b * 7471) / 65536
      ≤ 16711680 / 65536 := Nat.div_le_div_right h
    _ = 255 := by norm_num

theorem lumAt_le_255 (img : Img) (hwf : img.Wf) (x y : Nat)
    (hx : x < img.width) (hy : y < img.height) : lumAt img x y ≤ 255 :=
  lum_le_255 (ensure_rgb_getD_le img hwf x y hx hy 0)
    (ensure_rgb_getD_le img hwf x y hx hy 1)
    (ensure_rgb_getD_le img hwf x y hx hy 2)

/-- C6: `generate_alpha_threshold img t` fails with the InvalidParameter
error exactly when `t` lies outside [0,255] (so `t=-1` and `t=256` both
fail); for an in-range `t` the output mask is 255 at every pixel whose
luminance is ≥ `t` and 0 elsewhere, so `t=0` makes every pixel 255 and
`t=255` makes exactly the luminance-255 (pure-white) pixels 255. -/
theorem c6_threshold_contract (img : Img) (t : Int) (hwf : img.Wf) :
    (generate_alpha_threshold img t =
        Except.error "threshold must be between 0 and 255" ↔
      (t < 0 ∨ 255 < t)) ∧
    (0 ≤ t → t ≤ 255 →
      ∃ out, generate_alpha_threshold img t = Except.ok out ∧
        out.width = img.width ∧ out.height = img.height ∧
        out.mode = Mode.L ∧
        (∀ x y, out.pix x y =
          if ((lumAt img x y : Int) ≥ t) then [255] else [0]) ∧
        (t = 0 → ∀ x y, out.pix x y = [255]) ∧
        (t = 255 → ∀ x y, x < img.width → y < img.height →
          (out.pix x y = [255] ↔ lumAt img x y = 255))) := by
  constructor
  · by_cases h : 0 ≤ t ∧ t ≤ 255
    · constructor
      · intro he
        unfold generate_alpha_threshold at he
        rw [if_neg (by exact not_not_intro h)] at he
        cases he
      · intro hout
        omega
    · constructor
      · intro _
        omega
      · intro _
        unfold generate_alpha_threshold
        rw [if_pos h]
  · intro h0 h255
    refine ⟨Img.mk (generate_alpha_luminance img).width
        (generate_alpha_luminance img).height Mode.L
        (fun x y =>
          if (((generate_alpha_luminance img).pix x y).getD 0 0 : Int) ≥ t
          then [255] else [0]),
      ?_, ensure_rgb_width img, ensure_rgb_height img, rfl, ?_, ?_, ?_⟩
    · unfold generate_alpha_threshold
      rw [if_neg (by exact not_not_intro ⟨h0, h255⟩)]
    · intro x y
      show (if (((generate_alpha_luminance img).pix x y).getD 0 0 : Int) ≥ t
          then [255] else [0]) =
        if ((lumAt img x y : Int) ≥ t) then [255] else [0]
      rw [luminance_pix]
      rfl
    · intro ht x y
      subst ht
      show (if (((generate_alpha_luminance img).pix x y).getD 0 0 : Int) ≥ 0
          then [255] else [0]) = [255]
      rw [if_pos (by positivity)]
    · intro ht x y hx hy
      subst ht
      show (if (((generate_alpha_luminance img).pix x y).getD 0 0 : Int) ≥ 255
          then [255] else [0]) = [255] ↔ lumAt img x y = 255
      rw [luminance_pix]
      have hle : lumAt img x y ≤ 255 := lumAt_le_255 img hwf x y hx hy
      by_cases hge : ((lumAt img x y : Int) ≥ 255)
      · rw [if_pos (by simpa using hge)]
        simp only [true_iff, iff_true]
        omega
      · rw [if_neg (by simpa using hge)]
        constructor
        · intro he
          cases he
        · intro he
          omega

/-- Witness for C6 at a concrete pure-white 1×1 RGB image and `t=255`. -/
theorem c6_threshold_contract_witness :
    whiteRGB.Wf ∧
    ((generate_alpha_threshold whiteRGB 255 =
        Except.error "threshold must be between 0 and 255" ↔
      ((255 : Int) < 0 ∨ 255 < (255 : Int))) ∧
    ((0 : Int) ≤ 255 → (255 : Int) ≤ 255 →
      ∃ out, generate_alpha_threshold whiteRGB 255 = Except.ok out ∧
        out.width = whiteRGB.width ∧ out.height = whiteRGB.height ∧
        out.mode = Mode.L ∧
        (∀ x y, out.pix x y =
          if ((lumAt whiteRGB x y : Int) ≥ 255) then [255] else [0]) ∧
        ((255 : Int) = 0 → ∀ x y, out.pix x y = [255]) ∧
        ((255 : Int) = 255 → ∀ x y, x < whiteRGB.width → y < whiteRGB.height →
          (out.pix x y = [255] ↔ lumAt whiteRGB x y = 255)))) := by
  have hwf : whiteRGB.Wf := by
    intro x y hx hy
    exact ⟨rfl, by intro v hv; simp [whiteRGB] at hv; omega⟩
  exact ⟨hwf, c6_threshold_contract whiteRGB 255 hwf⟩

theorem ensure_rgb_of_rgb (img : Img) (hmode : img.mode = Mode.RGB) :
    ensure_rgb img = img := by
  unfold ensure_rgb
  simp [hmode]

/-- C9: for every RGB image, key color (in the byte range the int16
arithmetic of the code is overflow-free on), and tolerance in [0,255],
`generate_alpha_colorkey` outputs, per pixel, 0 where the Chebyshev
distance max(|R-Rk|,|G-Gk|,|B-Bk|) to the key — computed in signed
arithmetic — is ≤ tolerance and 255 elsewhere; an out-of-range
tolerance fails with the InvalidParameter error. -/
theorem c9_colorkey_contract (img : Img) (key : Int × Int × Int) (tol : Int)
    (hmode : img.mode = Mode.RGB)
    (hkey : 0 ≤ key.1 ∧ key.1 ≤ 255 ∧ 0 ≤ key.2.1 ∧ key.2.1 ≤ 255 ∧
      0 ≤ key.2.2 ∧ key.2.2 ≤ 255) :
    (generate_alpha_colorkey img key tol =
        Except.error "tolerance must be between 0 and 255" ↔
      (tol < 0 ∨ 255 < tol)) ∧
    (0 ≤ tol → tol ≤ 255 →
      ∃ out, generate_alpha_colorkey img key tol = Except.ok out ∧
        out.width = img.width ∧ out.height = img.height ∧
        out.mode = Mode.L ∧
        ∀ x y, out.pix x y =
          if chebyshev (img.pix x y) key ≤ tol then [0] else [255]) := by
  have hrgb : ensure_rgb img = img := ensure_rgb_of_rgb img hmode
  constructor
  · by_cases h : 0 ≤ tol ∧ tol ≤ 255
    · constructor
      · intro he
        unfold generate_alpha_colorkey at he
        rw [if_neg (by exact not_not_intro h)] at he
        cases he
      · intro hout
        omega
    · constructor
      · intro _
        omega
      · intro _
        unfold generate_alpha_colorkey
        rw [if_pos h]
  · intro h0 h255
    refine ⟨Img.mk img.width img.height Mode.L
        (fun x y =>
          if chebyshev (img.pix x y) key ≤ tol then [0] else [255]),
      ?_, rfl, rfl, rfl, fun x y => rfl⟩
    unfold generate_alpha_colorkey
    rw [if_neg (by exact not_not_intro ⟨h0, h255⟩), hrgb]

/-- Witness for C9 at a concrete white 1×1 RGB image, black key,
tolerance 20. -/
theorem c9_colorkey_contract_witness :
    whiteRGB.mode = Mode.RGB ∧
    ((generate_alpha_colorkey whiteRGB (0, 0, 0) 20 =
        Except.error "tolerance must be between 0 and 255" ↔
      ((20 : Int) < 0 ∨ 255 < (20 : Int))) ∧
    ((0 : Int) ≤ 20 → (20 : Int) ≤ 255 →
      ∃ out, generate_alpha_colorkey whiteRGB (0, 0, 0) 20 = Except.ok out ∧
        out.width = whiteRGB.width ∧ out.height = whiteRGB.height ∧
        out.mode = Mode.L ∧
        ∀ x y, out.pix x y =
          if chebyshev (whiteRGB.pix x y) (0, 0, 0) ≤ 20 then [0]
          else [255])) :=
  ⟨rfl, c9_colorkey_contract whiteRGB (0, 0, 0) 20 rfl (by norm_num)⟩

theorem getD_take_of_lt (l : List Nat) (n i : Nat) (h : i < n) :
    (l.take n).getD i 0 = l.getD i 0 := by
  rw [List.getD_eq_getElem?_getD, List.getD_eq_getElem?_getD,
    List.getElem?_take_of_lt h]

theorem ensure_l_width (img : Img) : (ensure_l img).width = img.width := by
  unfold ensure_l
  split
  · rfl
  · split <;> rfl

theorem ensure_l_height (img : Img) : (ensure_l img).height = img.height := by
  unfold ensure_l
  split
  · rfl
  · split <;> rfl

/-- On a color (RGB or RGBA) mask, `ensure_l` produces the luminance of
the first three bands at every pixel — the fourth (alpha) band of an
RGBA mask is never read. -/
theorem ensure_l_pix_of_color (mask : Img)
    (hmm : mask.mode = Mode.RGB ∨ mask.mode = Mode.RGBA) (x y : Nat) :
    (ensure_l mask).pix x y =
      [lum ((mask.pix x y).getD 0 0) ((mask.pix x y).getD 1 0)
        ((mask.pix x y).getD 2 0)] := by
  rcases hmm with hm | hm <;>
    unfold ensure_l <;>
    simp [hm, Img.convert, convertBands]

theorem ensure_rgb_pix_length (img : Img) (hwf : img.Wf) (x y : Nat)
    (hx : x < img.width) (hy : y < img.height) :
    ((ensure_rgb img).pix x y).length = 3 := by
  have hlen := (hwf x y hx hy).1
  unfold ensure_rgb
  rcases hm : img.mode with _ | _ | _ <;>
    rw [hm] at hlen <;>
    simp [hm, Img.convert, convertBands, Mode.nbands] at hlen ⊢ <;>
    omega

/-- C10: when `combine_alpha` is given a mask that is itself RGB or
RGBA, the mask is canonicalized to single-channel by luminance
conversion of its color channels; an RGBA mask's own alpha channel is
discarded and never contributes to the fourth channel of the combined
result. -/
theorem c10_mask_canonicalized_alpha_discarded (rgb_img mask : Img)
    (rs : String) (hwf : rgb_img.Wf)
    (hmm : mask.mode = Mode.RGB ∨ mask.mode = Mode.RGBA)
    (hw : mask.width = (ensure_rgb rgb_img).width)
    (hh : mask.height = (ensure_rgb rgb_img).height) :
    ∃ out, combine_alpha rgb_img mask false "error" rs = Except.ok out ∧
      (∀ x y, x < rgb_img.width → y < rgb_img.height →
        (out.pix x y).getD 3 0 =
          lum ((mask.pix x y).getD 0 0) ((mask.pix x y).getD 1 0)
            ((mask.pix x y).getD 2 0)) ∧
      (∀ mask2, mask2.mode = mask.mode → mask2.width = mask.width →
        mask2.height = mask.height →
        (∀ x y i, i < 3 →
          (mask2.pix x y).getD i 0 = (mask.pix x y).getD i 0) →
        ∃ out2,
          combine_alpha rgb_img mask2 false "error" rs = Except.ok out2 ∧
          ∀ x y, out2.pix x y = out.pix x y) := by
  have hok : ∀ m : Img, m.width = (ensure_rgb rgb_img).width →
      m.height = (ensure_rgb rgb_img).height →
      combine_alpha rgb_img m false "error" rs =
        Except.ok (combine_alpha.combineMerge (ensure_rgb rgb_img)
          (ensure_l m)) := by
    intro m hmw hmh
    unfold combine_alpha
    rw [if_neg]
    · rw [combine_alpha.maskInvert]
      simp
    · rw [ensure_l_width, ensure_l_height, hmw, hmh]
      simp
  refine ⟨_, hok mask hw hh, ?_, ?_⟩
  · intro x y hx hy
    show ((((ensure_rgb rgb_img).pix x y).take 3) ++
        [((ensure_l mask).pix x y).getD 0 0]).getD 3 0 = _
    have hlen : (((ensure_rgb rgb_img).pix x y).take 3).length = 3 := by
      simp [List.length_take, ensure_rgb_pix_length rgb_img hwf x y hx hy]
    have hcat := List.getElem?_concat_length
      (((ensure_rgb rgb_img).pix x y).take 3)
      (((ensure_l mask).pix x y).getD 0 0)
    rw [hlen] at hcat
    rw [List.getD_eq_getElem?_getD, hcat]
    rw [ensure_l_pix_of_color mask hmm]
    rfl
  · intro mask2 hm2 hw2 hh2 hpx
    refine ⟨_, hok mask2 (by rw [hw2, hw]) (by rw [hh2, hh]), ?_⟩
    intro x y
    show (((ensure_rgb rgb_img).pix x y).take 3) ++
        [((ensure_l mask2).pix x y).getD 0 0] =
      (((ensure_rgb rgb_img).pix x y).take 3) ++
        [((ensure_l mask).pix x y).getD 0 0]
    rw [ensure_l_pix_of_color mask hmm,
      ensure_l_pix_of_color mask2 (by rw [hm2]; exact hmm),
      hpx x y 0 (by omega), hpx x y 1 (by omega), hpx x y 2 (by omega)]

/-- Witness for C10 at a concrete 1×1 RGB image and 1×1 RGBA mask. -/
theorem c10_mask_canonicalized_alpha_discarded_witness :
    rgbImg1.Wf ∧
    (rgbaImg1.mode = Mode.RGB ∨ rgbaImg1.mode = Mode.RGBA) ∧
    rgbaImg1.width = (ensure_rgb rgbImg1).width ∧
    rgbaImg1.height = (ensure_rgb rgbImg1).height ∧
    (∃ out, combine_alpha rgbImg1 rgbaImg1 false "error" "nearest" =
        Except.ok out ∧
      (∀ x y, x < rgbImg1.width → y < rgbImg1.height →
        (out.pix x y).getD 3 0 =
          lum ((rgbaImg1.pix x y).getD 0 0) ((rgbaImg1.pix x y).getD 1 0)
            ((rgbaImg1.pix x y).getD 2 0)) ∧
      (∀ mask2, mask2.mode = rgbaImg1.mode → mask2.width = rgbaImg1.width →
        mask2.height = rgbaImg1.height →
        (∀ x y i, i < 3 →
          (mask2.pix x y).getD i 0 = (rgbaImg1.pix x y).getD i 0) →
        ∃ out2,
          combine_alpha rgbImg1 mask2 false "error" "nearest" =
            Except.ok out2 ∧
          ∀ x y, out2.pix x y = out.pix x y)) := by
  have hwf : rgbImg1.Wf := by
    intro x y hx hy
    exact ⟨rfl, by intro v hv; simp [rgbImg1] at hv; omega⟩
  exact ⟨hwf, Or.inr rfl, rfl, rfl,
    c10_mask_canonicalized_alpha_discarded rgbImg1 rgbaImg1 "nearest" hwf
      (Or.inr rfl) rfl rfl⟩

theorem count_partition (l : List Nat) (h : ∀ v ∈ l, v ≤ 255) :
    l.countP (fun v => v = 0) + l.countP (fun v => v = 255) +
      l.countP (fun v => decide (0 < v ∧ v < 255)) = l.length := by
  induction l with
  | nil => simp
  | cons x xs ih =>
    have hx : x ≤ 255 := h x (by simp)
    have hxs : ∀ v ∈ xs, v ≤ 255 := fun v hv => h v (by simp [hv])
    have hxs2 := ih hxs
    simp only [List.countP_cons, List.length_cons]
    split_ifs <;> simp_all <;> omega

theorem foldl_min_le_init (l : List Nat) (a : Nat) :
    l.foldl Nat.min a ≤ a := by
  induction l generalizing a with
  | nil => simp
  | cons x xs ih =>
    calc (x :: xs).foldl Nat.min a = xs.foldl Nat.min (Nat.min a x) := rfl
      _ ≤ Nat.min a x := ih _
      _ ≤ a := Nat.min_le_left _ _

theorem foldl_min_le_mem (l : List Nat) (a : Nat) :
    ∀ v ∈ l, l.foldl Nat.min a ≤ v := by
  induction l generalizing a with
  | nil => simp
  | cons x xs ih =>
    intro v hv
    rcases List.mem_cons.mp hv with h1 | h1
    · subst h1
      calc (v :: xs).foldl Nat.min a = xs.foldl Nat.min (Nat.min a v) := rfl
        _ ≤ Nat.min a v := foldl_min_le_init _ _
        _ ≤ v := Nat.min_le_right _ _
    · exact ih (Nat.min a x) v h1

theorem init_le_foldl_max (l : List Nat) (a : Nat) :
    a ≤ l.foldl Nat.max a := by
  induction l generalizing a with
  | nil => simp
  | cons x xs ih =>
    calc a ≤ Nat.max a x := Nat.le_max_left _ _
      _ ≤ xs.foldl Nat.max (Nat.max a x) := ih _
      _ = (x :: xs).foldl Nat.max a := rfl

theorem mem_le_foldl_max (l : List Nat) (a : Nat) :
    ∀ v ∈ l, v ≤ l.foldl Nat.max a := by
  induction l generalizing a with
  | nil => simp
  | cons x xs ih =>
    intro v hv
    rcases List.mem_cons.mp hv with h1 | h1
    · subst h1
      calc v ≤ Nat.max a v := Nat.le_max_right _ _
        _ ≤ xs.foldl Nat.max (Nat.max a v) := init_le_foldl_max _ _
        _ = (v :: xs).foldl Nat.max a := rfl
    · exact ih (Nat.max a x) v h1

theorem listMin_le_mem (l : List Nat) : ∀ v ∈ l, listMin l ≤ v := by
  cases l with
  | nil => simp
  | cons x xs =>
    intro v hv
    rcases List.mem_cons.mp hv with h1 | h1
    · subst h1
      exact foldl_min_le_init xs v
    · exact foldl_min_le_mem xs x v h1

theorem mem_le_listMax (l : List Nat) : ∀ v ∈ l, v ≤ listMax l := by
  cases l with
  | nil => simp
  | cons x xs =>
    intro v hv
    rcases List.mem_cons.mp hv with h1 | h1
    · subst h1
      exact init_le_foldl_max xs v
    · exact mem_le_foldl_max xs x v h1

theorem length_mul_le_sum (l : List Nat) (c : Nat) (h : ∀ v ∈ l, c ≤ v) :
    l.length * c ≤ l.sum := by
  induction l with
  | nil => simp
  | cons x xs ih =>
    have h1 : c ≤ x := h x (by simp)
    have h2 := ih (fun v hv => h v (by simp [hv]))
    simp only [List.length_cons, List.sum_cons]
    calc (xs.length + 1) * c = xs.length * c + c := by ring
      _ ≤ xs.sum + x := by omega
      _ = x + xs.sum := by omega

theorem sum_le_length_mul (l : List Nat) (c : Nat) (h : ∀ v ∈ l, v ≤ c) :
    l.sum ≤ l.length * c := by
  induction l with
  | nil => simp
  | cons x xs ih =>
    have h1 : x ≤ c := h x (by simp)
    have h2 := ih (fun v hv => h v (by simp [hv]))
    simp only [List.length_cons, List.sum_cons]
    calc x + xs.sum ≤ c + xs.length * c := by omega
      _ = (xs.length + 1) * c := by ring

theorem map_cast_sum (l : List Nat) :
    ((l.map (fun v => (Nat.cast v : ℚ))).sum) = ((l.sum : Nat) : ℚ) := by
  induction l with
  | nil => simp
  | cons x xs ih =>
    simp only [List.map_cons, List.sum_cons, ih]
    push_cast
    ring

/-- C8: for every non-empty uint8 alpha array, the AlphaStats produced
by `compute_alpha_stats` satisfy `pct_zero + pct_255 + pct_mid = 100`
(exactly, floats being modelled as rationals; pct_mid counts values
strictly between 0 and 255) and `min ≤ mean ≤ max`. -/
theorem c8_stats_invariant (a : NpArray2D) (hne : a.data ≠ [])
    (hbound : ∀ v ∈ a.data, v ≤ 255) :
    (computeAlphaStats a).pct_zero + (computeAlphaStats a).pct_255 +
      (computeAlphaStats a).pct_mid = 100 ∧
    ((computeAlphaStats a).min : ℚ) ≤ (computeAlphaStats a).mean ∧
    (computeAlphaStats a).mean ≤ ((computeAlphaStats a).max : ℚ) := by
  have hlen : 0 < a.data.length := List.length_pos.mpr hne
  have hn : (0 : ℚ) < (a.data.length : ℚ) := by exact_mod_cast hlen
  have hn0 : ((a.data.length : Nat) : ℚ) ≠ 0 := ne_of_gt hn
  refine ⟨?_, ?_, ?_⟩
  · show ((a.data.countP (fun v => v = 0) : ℚ) * 100) / a.data.length +
        ((a.data.countP (fun v => v = 255) : ℚ) * 100) / a.data.length +
        ((a.data.countP (fun v => decide (0 < v ∧ v < 255)) : ℚ) * 100) /
          a.data.length = 100
    have hc := count_partition a.data hbound
    rw [div_add_div_same, div_add_div_same]
    have : ((a.data.countP (fun v => v = 0) : ℚ) * 100) +
        ((a.data.countP (fun v => v = 255) : ℚ) * 100) +
        ((a.data.countP (fun v => decide (0 < v ∧ v < 255)) : ℚ) * 100) =
        ((a.data.length : ℚ)) * 100 := by
      push_cast [← hc]
      ring
    rw [this, mul_comm, mul_div_assoc, div_self hn0, mul_one]
  · show ((listMin a.data : Nat) : ℚ) ≤ npMean a.data
    unfold npMean
    rw [le_div_iff hn, map_cast_sum]
    have h1 : a.data.length * listMin a.data ≤ a.data.sum :=
      length_mul_le_sum a.data (listMin a.data) (listMin_le_mem a.data)
    calc ((listMin a.data : Nat) : ℚ) * a.data.length
        = ((a.data.length * listMin a.data : Nat) : ℚ) := by push_cast; ring
      _ ≤ ((a.data.sum : Nat) : ℚ) := by exact_mod_cast h1
  · show npMean a.data ≤ ((listMax a.data : Nat) : ℚ)
    unfold npMean
    rw [div_le_iff hn, map_cast_sum]
    have h1 : a.data.sum ≤ a.data.length * listMax a.data :=
      sum_le_length_mul a.data (listMax a.data) (mem_le_listMax a.data)
    calc ((a.data.sum : Nat) : ℚ)
        ≤ ((a.data.length * listMax a.data : Nat) : ℚ) := by exact_mod_cast h1
      _ = ((listMax a.data : Nat) : ℚ) * a.data.length := by push_cast; ring

/-- Witness for C8 at the concrete 1×3 array [0, 255, 7]. -/
theorem c8_stats_invariant_witness :
    (NpArray2D.mk 1 3 [0, 255, 7]).data ≠ [] ∧
    (∀ v ∈ (NpArray2D.mk 1 3 [0, 255, 7]).data, v ≤ 255) ∧
    ((computeAlphaStats (NpArray2D.mk 1 3 [0, 255, 7])).pct_zero +
        (computeAlphaStats (NpArray2D.mk 1 3 [0, 255, 7])).pct_255 +
        (computeAlphaStats (NpArray2D.mk 1 3 [0, 255, 7])).pct_mid = 100 ∧
      ((computeAlphaStats (NpArray2D.mk 1 3 [0, 255, 7])).min : ℚ) ≤
        (computeAlphaStats (NpArray2D.mk 1 3 [0, 255, 7])).mean ∧
      (computeAlphaStats (NpArray2D.mk 1 3 [0, 255, 7])).mean ≤
        ((computeAlphaStats (NpArray2D.mk 1 3 [0, 255, 7])).max : ℚ)) :=
  ⟨by decide, by decide,
    c8_stats_invariant (NpArray2D.mk 1 3 [0, 255, 7]) (by decide) (by decide)⟩

/-- C7: for every image whose alpha band is present,
`validate_alpha_file` starts from PASS and applies the three warning
rules independently: each matching rule appends its message and sets
the status to WARN, no rule suppresses a later rule's message, the
status is never FAIL, and it is PASS exactly when no rule matches. -/
theorem c7_validate_rules_engine (fs : FS) (p : FilePath)
    (rules : ValidationRules) (img : Img) (arr : NpArray2D)
    (hload : load_image fs p = Except.ok img)
    (harr : alpha_array img = some arr) :
    ∃ r, validate_alpha_file fs p rules = Except.ok r ∧
      r = AlphaValidationResult.mk (pathStr p) true
        (if (computeAlphaStats arr).pct_255 ≥ rules.warn_pct_255 ∨
            (computeAlphaStats arr).pct_zero ≥ rules.warn_pct_zero ∨
            ((computeAlphaStats arr).std < rules.warn_std_lt ∧
              ((computeAlphaStats arr).max : Int) -
                (computeAlphaStats arr).min ≤ rules.warn_range_le)
          then Status.WARN else Status.PASS)
        ((if (computeAlphaStats arr).pct_255 ≥ rules.warn_pct_255 then
            ["Alpha is ~all opaque."] else []) ++
          (if (computeAlphaStats arr).pct_zero ≥ rules.warn_pct_zero then
            ["Alpha is ~all transparent."] else []) ++
          (if (computeAlphaStats arr).std < rules.warn_std_lt ∧
              ((computeAlphaStats arr).max : Int) -
                (computeAlphaStats arr).min ≤ rules.warn_range_le then
            ["Alpha is near-constant."] else []))
        (some (computeAlphaStats arr)) ∧
      r.status ≠ Status.FAIL ∧
      (r.status = Status.PASS ↔
        ¬ ((computeAlphaStats arr).pct_255 ≥ rules.warn_pct_255 ∨
          (computeAlphaStats arr).pct_zero ≥ rules.warn_pct_zero ∨
          ((computeAlphaStats arr).std < rules.warn_std_lt ∧
            ((computeAlphaStats arr).max : Int) -
              (computeAlphaStats arr).min ≤ rules.warn_range_le))) := by
  unfold validate_alpha_file
  rw [hload]
  simp only []
  rw [harr]
  by_cases h1 : (computeAlphaStats arr).pct_255 ≥ rules.warn_pct_255 <;>
    by_cases h2 : (computeAlphaStats arr).pct_zero ≥ rules.warn_pct_zero <;>
    by_cases h3 : (computeAlphaStats arr).std < rules.warn_std_lt ∧
      ((computeAlphaStats arr).max : Int) ≤
        rules.warn_range_le + (computeAlphaStats arr).min <;>
    simp [h1, h2, h3, sub_le_iff_le_add]

/-- Witness for C7 at a concrete 1×1 RGBA image with alpha value 4. -/
theorem c7_validate_rules_engine_witness :
    load_image fsA aPngPath = Except.ok rgbaImg1 ∧
    alpha_array rgbaImg1 = some (NpArray2D.mk 1 1 [4]) ∧
    (∃ r, validate_alpha_file fsA aPngPath {} = Except.ok r ∧
      r = AlphaValidationResult.mk (pathStr aPngPath) true
        (if (computeAlphaStats (NpArray2D.mk 1 1 [4])).pct_255 ≥
            ValidationRules.warn_pct_255 {} ∨
            (computeAlphaStats (NpArray2D.mk 1 1 [4])).pct_zero ≥
              ValidationRules.warn_pct_zero {} ∨
            ((computeAlphaStats (NpArray2D.mk 1 1 [4])).std <
                ValidationRules.warn_std_lt {} ∧
              ((computeAlphaStats (NpArray2D.mk 1 1 [4])).max : Int) -
                (computeAlphaStats (NpArray2D.mk 1 1 [4])).min ≤
                  ValidationRules.warn_range_le {})
          then Status.WARN else Status.PASS)
        ((if (computeAlphaStats (NpArray2D.mk 1 1 [4])).pct_255 ≥
            ValidationRules.warn_pct_255 {} then
            ["Alpha is ~all opaque."] else []) ++
          (if (computeAlphaStats (NpArray2D.mk 1 1 [4])).pct_zero ≥
              ValidationRules.warn_pct_zero {} then
            ["Alpha is ~all transparent."] else []) ++
          (if (computeAlphaStats (NpArray2D.mk 1 1 [4])).std <
              ValidationRules.warn_std_lt {} ∧
              ((computeAlphaStats (NpArray2D.mk 1 1 [4])).max : Int) -
                (computeAlphaStats (NpArray2D.mk 1 1 [4])).min ≤
                  ValidationRules.warn_range_le {} then
            ["Alpha is near-constant."] else []))
        (some (computeAlphaStats (NpArray2D.mk 1 1 [4]))) ∧
      r.status ≠ Status.FAIL ∧
      (r.status = Status.PASS ↔
        ¬ ((computeAlphaStats (NpArray2D.mk 1 1 [4])).pct_255 ≥
            ValidationRules.warn_pct_255 {} ∨
          (computeAlphaStats (NpArray2D.mk 1 1 [4])).pct_zero ≥
            ValidationRules.warn_pct_zero {} ∨
          ((computeAlphaStats (NpArray2D.mk 1 1 [4])).std <
              ValidationRules.warn_std_lt {} ∧
            ((computeAlphaStats (NpArray2D.mk 1 1 [4])).max : Int) -
              (computeAlphaStats (NpArray2D.mk 1 1 [4])).min ≤
                ValidationRules.warn_range_le {})))) :=
  ⟨rfl, rfl,
    c7_validate_rules_engine fsA aPngPath {} rgbaImg1 (NpArray2D.mk 1 1 [4])
      rfl rfl⟩

theorem mem_setdefault (m : List (String × FilePath)) (k : String)
    (v : FilePath) (e : String × FilePath) (he : e ∈ setdefault m k v) :
    e ∈ m ∨ e = (k, v) := by
  unfold setdefault at he
  split at he
  · exact Or.inl he
  · rcases List.mem_append.mp he with h | h
    · exact Or.inl h
    · simp at h
      exact Or.inr h

theorem setdefault_keys_nodup (m : List (String × FilePath)) (k : String)
    (v : FilePath) (h : (m.map Prod.fst).Nodup) :
    ((setdefault m k v).map Prod.fst).Nodup := by
  unfold setdefault
  split
  · exact h
  · rename_i hany
    rw [List.map_append]
    rw [List.nodup_append]
    refine ⟨h, List.nodup_singleton _, ?_⟩
    intro a ha hb
    simp at hb
    subst hb
    rcases List.mem_map.mp ha with ⟨e, hem, hek⟩
    exact hany (List.any_eq_true.mpr ⟨e, hem, by simp [hek]⟩)

theorem setdefault_keys_toFinset (m : List (String × FilePath)) (k : String)
    (v : FilePath) :
    ((setdefault m k v).map Prod.fst).toFinset =
      insert k (m.map Prod.fst).toFinset := by
  unfold setdefault
  split
  · rename_i hany
    rcases List.any_eq_true.mp hany with ⟨e, hem, hek⟩
    simp only [decide_eq_true_eq] at hek
    have hkmem : k ∈ (m.map Prod.fst).toFinset := by
      rw [List.mem_toFinset]
      exact List.mem_map.mpr ⟨e, hem, hek⟩
    rw [Finset.insert_eq_self.mpr hkmem]
  · rw [List.map_append, List.toFinset_append]
    simp only [List.map_cons, List.map_nil, List.toFinset_cons,
      List.toFinset_nil, insert_emptyc_eq]
    ext a
    simp [Or.comm]

theorem buildKeyMap_cons (fs : FS) (rule : PairingRule) (ia : Bool)
    (p : FilePath) (rest : List FilePath) (m : List (String × FilePath)) :
    buildKeyMap fs rule ia (p :: rest) m =
      buildKeyMap fs rule ia rest
        (if is_image_file fs p then
          setdefault m (key_for_path p rule ia) p
        else m) := rfl

theorem buildKeyMap_keys_nodup (fs : FS) (rule : PairingRule) (ia : Bool)
    (l : List FilePath) (m : List (String × FilePath))
    (h : (m.map Prod.fst).Nodup) :
    ((buildKeyMap fs rule ia l m).map Prod.fst).Nodup := by
  induction l generalizing m with
  | nil => exact h
  | cons p rest ih =>
    rw [buildKeyMap_cons]
    by_cases hp : is_image_file fs p
    · rw [if_pos hp]
      exact ih _ (setdefault_keys_nodup _ _ _ h)
    · rw [if_neg hp]
      exact ih _ h

theorem buildKeyMap_keys_toFinset (fs : FS) (rule : PairingRule) (ia : Bool)
    (l : List FilePath) (m : List (String × FilePath)) :
    ((buildKeyMap fs rule ia l m).map Prod.fst).toFinset =
      (m.map Prod.fst).toFinset ∪
        ((l.filter (fun p => is_image_file fs p)).map
          (fun p => key_for_path p rule ia)).toFinset := by
  induction l generalizing m with
  | nil => simp [buildKeyMap]
  | cons p rest ih =>
    rw [buildKeyMap_cons]
    by_cases hp : is_image_file fs p
    · rw [if_pos hp, ih, setdefault_keys_toFinset]
      rw [List.filter_cons_of_pos (by simpa using hp), List.map_cons,
        List.toFinset_cons]
      rw [Finset.insert_union, Finset.union_insert]
    · rw [if_neg hp, ih]
      rw [List.filter_cons_of_neg (by simpa using hp)]

theorem buildKeyMap_entries (fs : FS) (rule : PairingRule) (ia : Bool)
    (l : List FilePath) (m : List (String × FilePath))
    (h : ∀ e ∈ m, e.1 = key_for_path e.2 rule ia) :
    ∀ e ∈ buildKeyMap fs rule ia l m, e.1 = key_for_path e.2 rule ia := by
  induction l generalizing m with
  | nil => exact h
  | cons p rest ih =>
    rw [buildKeyMap_cons]
    by_cases hp : is_image_file fs p
    · rw [if_pos hp]
      refine ih _ ?_
      intro e he
      rcases mem_setdefault _ _ _ e he with h1 | h1
      · exact h e h1
      · rw [h1]
    · rw [if_neg hp]
      exact ih _ h

theorem alookup_isSome_iff (m : List (String × FilePath)) (k : String) :
    (alookup m k).isSome = true ↔ k ∈ m.map Prod.fst := by
  unfold alookup
  rw [Option.isSome_map']
  rw [List.find?_isSome]
  constructor
  · rintro ⟨e, hem, hek⟩
    simp only [decide_eq_true_eq] at hek
    exact List.mem_map.mpr ⟨e, hem, hek⟩
  · intro hk
    rcases List.mem_map.mp hk with ⟨e, hem, hek⟩
    exact ⟨e, hem, by simp [hek]⟩

theorem alookup_eq_some_mem (m : List (String × FilePath)) (k : String)
    (v : FilePath) (h : alookup m k = some v) : (k, v) ∈ m := by
  unfold alookup at h
  cases hf : m.find? (fun e => e.1 = k) with
  | none => rw [hf] at h; cases h
  | some e =>
    rw [hf] at h
    simp only [Option.map_some', Option.some.injEq] at h
    have hm := List.mem_of_find?_eq_some hf
    have hp := List.find?_some hf
    simp only [decide_eq_true_eq] at hp
    have hkv : (k, v) = e := by
      cases e
      simp at hp h ⊢
      exact ⟨hp.symm, h.symm⟩
    rw [hkv]
    exact hm

theorem mem_alookup_isSome (m : List (String × FilePath))
    (kp : String × FilePath) (h : kp ∈ m) :
    (alookup m kp.1).isSome = true :=
  (alookup_isSome_iff m kp.1).mpr (List.mem_map.mpr ⟨kp, h, rfl⟩)

theorem filterMap_pair_length (am l : List (String × FilePath)) :
    (l.filterMap (fun kp =>
      (alookup am kp.1).map (fun a => (kp.2, a)))).length =
    (l.filter (fun kp => (alookup am kp.1).isSome)).length := by
  induction l with
  | nil => rfl
  | cons kp rest ih =>
    cases h : alookup am kp.1 <;>
      simp [List.filterMap_cons, List.filter_cons, h, ih]

theorem filter_some_none_length (am l : List (String × FilePath)) :
    (l.filter (fun kp => (alookup am kp.1).isSome)).length +
    (l.filter (fun kp => (alookup am kp.1).isNone)).length = l.length := by
  induction l with
  | nil => rfl
  | cons kp rest ih =>
    cases h : alookup am kp.1 <;>
      simp [List.filter_cons, h] <;>
      omega

theorem filter_key_length (m : List (String × FilePath)) (P : String → Bool)
    (h : (m.map Prod.fst).Nodup) :
    (m.filter (fun kp => P kp.1)).length =
      ((m.map Prod.fst).toFinset.filter (fun k => P k)).card := by
  have h1 : (m.filter (fun kp => P kp.1)).length =
      ((m.map Prod.fst).filter P).length := by
    rw [List.filter_map]
    rw [List.length_map]
    rfl
  rw [h1]
  rw [← List.toFinset_card_of_nodup (h.filter P), List.toFinset_filter]

theorem mem_used_iff (rmap amap : List (String × FilePath)) (k : String) :
    k ∈ (rmap.filter (fun kp => (alookup amap kp.1).isSome)).map
        (fun kp => kp.1) ↔
      (k ∈ rmap.map Prod.fst ∧ (alookup amap k).isSome = true) := by
  constructor
  · intro h
    rcases List.mem_map.mp h with ⟨kp, hkpf, hk⟩
    rcases List.mem_filter.mp hkpf with ⟨hkp, hs⟩
    subst hk
    exact ⟨List.mem_map.mpr ⟨kp, hkp, rfl⟩, hs⟩
  · rintro ⟨hmem, hs⟩
    rcases List.mem_map.mp hmem with ⟨kp, hkp, hk⟩
    subst hk
    exact List.mem_map.mpr ⟨kp, List.mem_filter.mpr ⟨hkp, hs⟩, rfl⟩

/-- C5: for all input lists and every pairing rule, `build_pairs` never
places the same RGB path into both `pairs` and `unpaired_rgb`;
`len(pairs) + len(unpaired_rgb)` equals the number of distinct RGB
keys, `len(pairs) + len(unpaired_alpha)` equals the number of distinct
alpha keys, and the key sets of the three output lists are pairwise
disjoint. -/
theorem c5_build_pairs_invariants (fs : FS) (rgbs alphas : List FilePath)
    (rule : PairingRule) :
    ((build_pairs fs rgbs alphas rule).1.length +
        (build_pairs fs rgbs alphas rule).2.1.length =
      (imageKeys fs rule false rgbs).card) ∧
    ((build_pairs fs rgbs alphas rule).1.length +
        (build_pairs fs rgbs alphas rule).2.2.length =
      (imageKeys fs rule true alphas).card) ∧
    (∀ pr ∈ (build_pairs fs rgbs alphas rule).1,
      ∀ q ∈ (build_pairs fs rgbs alphas rule).2.1,
        key_for_path pr.1 rule false ≠ key_for_path q rule false) ∧
    (∀ pr ∈ (build_pairs fs rgbs alphas rule).1,
      ∀ q ∈ (build_pairs fs rgbs alphas rule).2.2,
        key_for_path pr.2 rule true ≠ key_for_path q rule true) ∧
    (∀ q ∈ (build_pairs fs rgbs alphas rule).2.1,
      ∀ q2 ∈ (build_pairs fs rgbs alphas rule).2.2,
        key_for_path q rule false ≠ key_for_path q2 rule true) ∧
    (∀ pr ∈ (build_pairs fs rgbs alphas rule).1,
      pr.1 ∉ (build_pairs fs rgbs alphas rule).2.1) := by
  set rmap := buildKeyMap fs rule false rgbs [] with hrm
  set amap := buildKeyMap fs rule true alphas [] with ham
  set used := (rmap.filter (fun kp => (alookup amap kp.1).isSome)).map
    (fun kp => kp.1) with hus
  have hP : (build_pairs fs rgbs alphas rule).1 =
      (rmap.filterMap (fun kp =>
        (alookup amap kp.1).map (fun a => (kp.2, a)))).mergeSort
        (fun a b => pathStr a.1 ≤ pathStr b.1) := by
    rfl
  have hU : (build_pairs fs rgbs alphas rule).2.1 =
      ((rmap.filter (fun kp =>
        kp.1 ∉ used ∧ (alookup amap kp.1).isNone)).map
          (fun kp => kp.2)).mergeSort (fun a b => pathStr a ≤ pathStr b) := by
    rfl
  have hA : (build_pairs fs rgbs alphas rule).2.2 =
      ((amap.filter (fun kp => kp.1 ∉ used)).map
        (fun kp => kp.2)).mergeSort (fun a b => pathStr a ≤ pathStr b) := by
    rfl
  have hrnod : (rmap.map Prod.fst).Nodup := by
    rw [hrm]
    exact buildKeyMap_keys_nodup fs rule false rgbs [] (by simp)
  have hanod : (amap.map Prod.fst).Nodup := by
    rw [ham]
    exact buildKeyMap_keys_nodup fs rule true alphas [] (by simp)
  have hrent : ∀ e ∈ rmap, e.1 = key_for_path e.2 rule false := by
    rw [hrm]
    exact buildKeyMap_entries fs rule false rgbs [] (by simp)
  have haent : ∀ e ∈ amap, e.1 = key_for_path e.2 rule true := by
    rw [ham]
    exact buildKeyMap_entries fs rule true alphas [] (by simp)
  have hrfin : (rmap.map Prod.fst).toFinset = imageKeys fs rule false rgbs := by
    rw [hrm, buildKeyMap_keys_toFinset]
    simp [imageKeys]
  have hafin : (amap.map Prod.fst).toFinset = imageKeys fs rule true alphas := by
    rw [ham, buildKeyMap_keys_toFinset]
    simp [imageKeys]
  -- the `unpaired_rgb` filter condition collapses to `isNone`
  have hurfilter : rmap.filter (fun kp =>
      decide (kp.1 ∉ used ∧ (alookup amap kp.1).isNone = true)) =
      rmap.filter (fun kp => (alookup amap kp.1).isNone) := by
    apply List.filter_congr
    intro kp hkp
    cases hc : alookup amap kp.1 with
    | some a => simp [hc]
    | none =>
      have hnotused : kp.1 ∉ used := by
        rw [hus]
        intro hmem
        have := ((mem_used_iff rmap amap kp.1).mp hmem).2
        rw [hc] at this
        cases this
      simp [hc, hnotused]
  -- the `unpaired_alpha` filter condition collapses to `key not on rgb side`
  have huafilter : amap.filter (fun kp => decide (kp.1 ∉ used)) =
      amap.filter (fun kp => decide (kp.1 ∉ rmap.map Prod.fst)) := by
    apply List.filter_congr
    intro kp hkp
    have hsome : (alookup amap kp.1).isSome = true := mem_alookup_isSome amap kp hkp
    by_cases hmem : kp.1 ∈ rmap.map Prod.fst
    · have : kp.1 ∈ used := by
        rw [hus]
        exact (mem_used_iff rmap amap kp.1).mpr ⟨hmem, hsome⟩
      simp [this, hmem]
    · have : kp.1 ∉ used := by
        rw [hus]
        intro hcon
        exact hmem ((mem_used_iff rmap amap kp.1).mp hcon).1
      simp [this, hmem]
  have hrcard : rmap.length = (imageKeys fs rule false rgbs).card := by
    rw [← hrfin, List.toFinset_card_of_nodup hrnod, List.length_map]
  have hacard : amap.length = (imageKeys fs rule true alphas).card := by
    rw [← hafin, List.toFinset_card_of_nodup hanod, List.length_map]
  have hpairslen : (rmap.filterMap (fun kp =>
      (alookup amap kp.1).map (fun a => (kp.2, a)))).length =
      (rmap.filter (fun kp => (alookup amap kp.1).isSome)).length :=
    filterMap_pair_length amap rmap
  -- membership characterizations
  have hpair_mem : ∀ pr ∈ (build_pairs fs rgbs alphas rule).1,
      ∃ kp ∈ rmap, pr.1 = kp.2 ∧ alookup amap kp.1 = some pr.2 := by
    intro pr hpr
    rw [hP, List.mem_mergeSort] at hpr
    rcases List.mem_filterMap.mp hpr with ⟨kp, hkp, hmap⟩
    rcases Option.map_eq_some'.mp hmap with ⟨a, ha, heq⟩
    subst heq
    exact ⟨kp, hkp, rfl, ha⟩
  have hur_mem : ∀ q ∈ (build_pairs fs rgbs alphas rule).2.1,
      ∃ kp ∈ rmap, q = kp.2 ∧ alookup amap kp.1 = none := by
    intro q hq
    rw [hU, List.mem_mergeSort] at hq
    rcases List.mem_map.mp hq with ⟨kp, hkpf, hk⟩
    rcases List.mem_filter.mp hkpf with ⟨hkp, hcond⟩
    simp only [decide_eq_true_eq] at hcond
    exact ⟨kp, hkp, hk.symm, Option.isNone_iff_eq_none.mp hcond.2⟩
  have hua_mem : ∀ q ∈ (build_pairs fs rgbs alphas rule).2.2,
      ∃ kp ∈ amap, q = kp.2 ∧ kp.1 ∉ rmap.map Prod.fst := by
    intro q hq
    rw [hA, List.mem_mergeSort] at hq
    rcases List.mem_map.mp hq with ⟨kp, hkpf, hk⟩
    have hkpf2 : kp ∈ amap.filter (fun kp =>
        decide (kp.1 ∉ rmap.map Prod.fst)) := by
      rw [← huafilter]
      exact hkpf
    rcases List.mem_filter.mp hkpf2 with ⟨hkp, hcond⟩
    simp only [decide_eq_true_eq] at hcond
    exact ⟨kp, hkp, hk.symm, hcond⟩
  refine ⟨?_, ?_, ?_, ?_, ?_, ?_⟩
  · -- pairs + unpaired_rgb = distinct rgb keys
    rw [hP, hU, List.length_mergeSort, List.length_mergeSort,
      List.length_map, hurfilter, hpairslen, ← hrcard]
    exact filter_some_none_length amap rmap
  · -- pairs + unpaired_alpha = distinct alpha keys
    rw [hP, hA, List.length_mergeSort, List.length_mergeSort,
      List.length_map, huafilter, hpairslen]
    rw [filter_key_length rmap (fun k => (alookup amap k).isSome) hrnod]
    rw [filter_key_length amap (fun k => decide (k ∉ rmap.map Prod.fst))
      hanod]
    have e1 : (rmap.map Prod.fst).toFinset.filter
        (fun k => (alookup amap k).isSome) =
        (imageKeys fs rule false rgbs).filter
          (fun k => k ∈ imageKeys fs rule true alphas) := by
      rw [hrfin]
      apply Finset.filter_congr
      intro k _
      rw [alookup_isSome_iff]
      rw [← List.mem_toFinset, hafin]
    have e2 : (amap.map Prod.fst).toFinset.filter
        (fun k => decide (k ∉ rmap.map Prod.fst)) =
        (imageKeys fs rule true alphas).filter
          (fun k => k ∉ imageKeys fs rule false rgbs) := by
      rw [hafin]
      apply Finset.filter_congr
      intro k _
      simp only [decide_eq_true_eq]
      have hmem : k ∈ rmap.map Prod.fst ↔ k ∈ imageKeys fs rule false rgbs := by
        rw [← List.mem_toFinset, hrfin]
      exact not_congr hmem
    rw [e1, e2]
    have e3 : (imageKeys fs rule false rgbs).filter
        (fun k => k ∈ imageKeys fs rule true alphas) =
        (imageKeys fs rule true alphas).filter
          (fun k => k ∈ imageKeys fs rule false rgbs) := by
      ext k
      simp [Finset.mem_filter, and_comm]
    rw [e3]
    exact Finset.filter_card_add_filter_neg_card_eq_card
      (fun k => k ∈ imageKeys fs rule false rgbs)
  · -- pairs keys disjoint from unpaired_rgb keys
    intro pr hpr q hq heq
    rcases hpair_mem pr hpr with ⟨kp, hkp, hp1, hsome⟩
    rcases hur_mem q hq with ⟨kp2, hkp2, hq1, hnone⟩
    have hk1 : key_for_path pr.1 rule false = kp.1 := by
      rw [hp1, ← hrent kp hkp]
    have hk2 : key_for_path q rule false = kp2.1 := by
      rw [hq1, ← hrent kp2 hkp2]
    rw [hk1, hk2] at heq
    rw [heq, hnone] at hsome
    cases hsome
  · -- pairs keys disjoint from unpaired_alpha keys
    intro pr hpr q hq heq
    rcases hpair_mem pr hpr with ⟨kp, hkp, hp1, hsome⟩
    rcases hua_mem q hq with ⟨kp2, hkp2, hq1, hnot⟩
    have hmem2 : (kp.1, pr.2) ∈ amap := alookup_eq_some_mem amap kp.1 pr.2 hsome
    have hk1 : key_for_path pr.2 rule true = kp.1 :=
      (haent (kp.1, pr.2) hmem2).symm
    have hk2 : key_for_path q rule true = kp2.1 := by
      rw [hq1, ← haent kp2 hkp2]
    rw [hk1, hk2] at heq
    apply hnot
    rw [← heq]
    exact List.mem_map.mpr ⟨kp, hkp, rfl⟩
  · -- unpaired_rgb keys disjoint from unpaired_alpha keys
    intro q hq q2 hq2 heq
    rcases hur_mem q hq with ⟨kp, hkp, hq1, hnone⟩
    rcases hua_mem q2 hq2 with ⟨kp2, hkp2, hq21, hnot⟩
    have hk1 : key_for_path q rule false = kp.1 := by
      rw [hq1, ← hrent kp hkp]
    have hk2 : key_for_path q2 rule true = kp2.1 := by
      rw [hq21, ← haent kp2 hkp2]
    rw [hk1, hk2] at heq
    have hsome : (alookup amap kp2.1).isSome = true :=
      mem_alookup_isSome amap kp2 hkp2
    rw [← heq, hnone] at hsome
    cases hsome
  · -- an RGB path never sits in both pairs and unpaired_rgb
    intro pr hpr hcon
    rcases hpair_mem pr hpr with ⟨kp, hkp, hp1, hsome⟩
    rcases hur_mem pr.1 hcon with ⟨kp2, hkp2, hq1, hnone⟩
    have hk1 : key_for_path pr.1 rule false = kp.1 := by
      rw [hp1, ← hrent kp hkp]
    have hk2 : key_for_path pr.1 rule false = kp2.1 := by
      rw [hq1, ← hrent kp2 hkp2]
    rw [hk1] at hk2
    rw [hk2, hnone] at hsome
    cases hsome

/-- Witness for C5 at concrete inputs (one rgb path, one alpha path,
default rule). -/
theorem c5_build_pairs_invariants_witness :
    ((build_pairs fs1 [inPath1] [inPath1] {}).1.length +
        (build_pairs fs1 [inPath1] [inPath1] {}).2.1.length =
      (imageKeys fs1 {} false [inPath1]).card) ∧
    ((build_pairs fs1 [inPath1] [inPath1] {}).1.length +
        (build_pairs fs1 [inPath1] [inPath1] {}).2.2.length =
      (imageKeys fs1 {} true [inPath1]).card) ∧
    (∀ pr ∈ (build_pairs fs1 [inPath1] [inPath1] {}).1,
      ∀ q ∈ (build_pairs fs1 [inPath1] [inPath1] {}).2.1,
        key_for_path pr.1 {} false ≠ key_for_path q {} false) ∧
    (∀ pr ∈ (build_pairs fs1 [inPath1] [inPath1] {}).1,
      ∀ q ∈ (build_pairs fs1 [inPath1] [inPath1] {}).2.2,
        key_for_path pr.2 {} true ≠ key_for_path q {} true) ∧
    (∀ q ∈ (build_pairs fs1 [inPath1] [inPath1] {}).2.1,
      ∀ q2 ∈ (build_pairs fs1 [inPath1] [inPath1] {}).2.2,
        key_for_path q {} false ≠ key_for_path q2 {} true) ∧
    (∀ pr ∈ (build_pairs fs1 [inPath1] [inPath1] {}).1,
      pr.1 ∉ (build_pairs fs1 [inPath1] [inPath1] {}).2.1) :=
  c5_build_pairs_invariants fs1 [inPath1] [inPath1] {}

theorem splitLoop_visits (out_dir : FilePath) (rs as : String) (ow : Bool)
    (oma : String) (total : Nat) (files : List FilePath) :
    ∀ (fs : FS) (i : Nat),
      ((splitLoop out_dir rs as ow oma true total fs files i).trace.filter
        (fun e => e.message = "Splitting alpha")).map (fun e => e.path) =
      files := by
  induction files with
  | nil => intro fs i; rfl
  | cons p rest ih =>
    intro fs i
    rcases hsf : split_alpha_file fs p (infer_output_path p out_dir rs ".png")
      (infer_output_path p out_dir as ".png") ow oma with ⟨fs2, err⟩
    cases err with
    | none => simp [splitLoop, hsf, List.filter_cons, ih]
    | some e => simp [splitLoop, hsf, List.filter_cons, ih]

theorem generateLoop_visits (out_dir : FilePath) (opts : GenerateOptions)
    (osfx : String) (ow : Bool) (total : Nat) (files : List FilePath) :
    ∀ (fs : FS) (i : Nat),
      ((generateLoop out_dir opts osfx ow true total fs files i).trace.filter
        (fun e => e.message = "Generating alpha")).map (fun e => e.path) =
      files := by
  induction files with
  | nil => intro fs i; rfl
  | cons p rest ih =>
    intro fs i
    rcases hsf : generate_alpha_file fs p
      (infer_output_path p out_dir osfx ".png") opts ow with ⟨fs2, err, out?⟩
    cases err with
    | none => simp [generateLoop, hsf, List.filter_cons, ih]
    | some e => simp [generateLoop, hsf, List.filter_cons, ih]

theorem combineLoop_visits (out_dir : FilePath) (osfx : String) (inv : Bool)
    (rm rsm : String) (ow : Bool) (total : Nat)
    (prs : List (FilePath × FilePath)) :
    ∀ (fs : FS) (i : Nat),
      ((combineLoop out_dir osfx inv rm rsm ow true total fs prs i).trace.filter
        (fun e => e.message = "Combining alpha")).map (fun e => e.path) =
      prs.map (fun pr => pr.1) := by
  induction prs with
  | nil => intro fs i; rfl
  | cons pr rest ih =>
    intro fs i
    rcases pr with ⟨rgb_p, a_p⟩
    rcases hsf : combine_alpha_file fs rgb_p a_p
      (infer_output_path rgb_p out_dir osfx ".png") inv rm rsm ow with
      ⟨fs2, err⟩
    cases err with
    | none => simp [combineLoop, hsf, List.filter_cons, ih]
    | some e => simp [combineLoop, hsf, List.filter_cons, ih]

theorem validateLoop_visits (rules : ValidationRules) (total : Nat)
    (files : List FilePath) :
    ∀ (fs : FS) (i : Nat),
      ((validateLoop rules true total fs files i).trace.filter
        (fun e => e.message = "Validating alpha")).map (fun e => e.path) =
      files := by
  induction files with
  | nil => intro fs i; rfl
  | cons p rest ih =>
    intro fs i
    cases hsf : validate_alpha_file fs p rules with
    | ok res => simp [validateLoop, hsf, List.filter_cons, ih]
    | error e => simp [validateLoop, hsf, List.filter_cons, ih]

theorem validate_alpha_file_path (fs : FS) (p : FilePath)
    (rules : ValidationRules) (r : AlphaValidationResult)
    (h : validate_alpha_file fs p rules = Except.ok r) : r.path = pathStr p := by
  unfold validate_alpha_file at h
  cases hl : load_image fs p with
  | error e =>
    rw [hl] at h
    cases h
  | ok img =>
    rw [hl] at h
    dsimp only at h
    cases ha : alpha_array img with
    | none =>
      rw [ha] at h
      simp only [Except.ok.injEq] at h
      rw [← h]
    | some arr =>
      rw [ha] at h
      simp only [Except.ok.injEq] at h
      rw [← h]

theorem validateLoop_paths (rules : ValidationRules) (total : Nat)
    (files : List FilePath) :
    ∀ (fs : FS) (i : Nat),
      ((validateLoop rules true total fs files i).outputs.map
        (fun r => r.path)) = files.map pathStr := by
  induction files with
  | nil => intro fs i; rfl
  | cons p rest ih =>
    intro fs i
    cases hsf : validate_alpha_file fs p rules with
    | ok res =>
      have hpath := validate_alpha_file_path fs p rules res hsf
      simp [validateLoop, hsf, ih, hpath]
    | error e => simp [validateLoop, hsf, ih]

/-- C3 as amended: under the default `continue_on_error=true` (and no
cancellation), `split_files` and `generate_files` first apply Path
Expansion and visit exactly the expanded, deduplicated image list;
`combine_files` visits exactly the caller-supplied pairs and
`validate_files` visits exactly the raw caller-supplied path list (its
result paths are those raw paths) — expansion for those two is the
caller's responsibility. -/
theorem c3_batch_entry_points_visit (fs : FS) (inp vpaths : List FilePath)
    (prs : List (FilePath × FilePath)) (out_dir : FilePath)
    (rs as osfx : String) (ow inv : Bool) (oma rm rsm : String)
    (opts : GenerateOptions) (rules : ValidationRules) :
    (((split_alpha_files fs inp out_dir rs as ow oma true).trace.filter
        (fun e => e.message = "Splitting alpha")).map (fun e => e.path) =
      expand_inputs fs inp) ∧
    (((generate_alpha_files fs inp out_dir opts osfx ow true).trace.filter
        (fun e => e.message = "Generating alpha")).map (fun e => e.path) =
      expand_inputs fs inp) ∧
    (((combine_alpha_files fs prs out_dir osfx inv rm rsm ow true).trace.filter
        (fun e => e.message = "Combining alpha")).map (fun e => e.path) =
      prs.map (fun pr => pr.1)) ∧
    (((validate_alpha_files fs vpaths rules true).trace.filter
        (fun e => e.message = "Validating alpha")).map (fun e => e.path) =
      vpaths) ∧
    ((validate_alpha_files fs vpaths rules true).outputs.map
      (fun r => r.path) = vpaths.map pathStr) :=
  ⟨splitLoop_visits out_dir rs as ow oma
      (expand_inputs fs inp).length (expand_inputs fs inp) fs 1,
    generateLoop_visits out_dir opts osfx ow
      (expand_inputs fs inp).length (expand_inputs fs inp) fs 1,
    combineLoop_visits out_dir osfx inv rm rsm ow prs.length prs fs 1,
    validateLoop_visits rules vpaths.length vpaths fs 1,
    validateLoop_paths rules vpaths.length vpaths fs 1⟩

/-- C3 counterexample: `validate_alpha_files` does not apply Path
Expansion.  On the raw input list `["x.txt"]` (a non-image path that
expansion would drop) the batch visits the raw path and returns one
FAIL result for it, while the expanded image list is empty. -/
theorem c3_counterexample_validate_raw_paths :
    expand_inputs fsEmpty [txtPath1] = [] ∧
    ((validate_alpha_files fsEmpty [txtPath1] {} true).trace.filter
      (fun e => e.message = "Validating alpha")).map (fun e => e.path) =
      [txtPath1] ∧
    (validate_alpha_files fsEmpty [txtPath1] {} true).outputs.map
      (fun r => (r.path, r.status)) = [("x.txt", Status.FAIL)] := by
  refine ⟨rfl, ?_, ?_⟩ <;> rfl

end AlphaImaging
